import Mathlib

/-!
Verification of the Memory Garden persistence layer: the `PhotoStorage`
file store and the `StoryRepository` record store in their two variants
(file-backed JSON array in `FastAPI App/main.py`, MongoDB document
collection in `memory-garden/main.py`), together with the
`update_story_photos` / `delete_story_photos` endpoint logic built on them.

Modelling conventions:
* A filesystem path (`pathlib.Path`) is `MPath`: an absolute/relative flag
  plus the list of path segments (`Path.parts`).
* The on-disk byte content of files is `Fs`, a map from `MPath` to byte
  lists; `write_bytes` overwrites, and a deletion of a missing file is
  visible as the `none` lookup exactly as `pathlib` reports it.
* `datetime` values are microseconds since the epoch (a `Nat`).
  `datetime.isoformat` is modelled as an injective decimal rendering of
  that count and `datetime.fromisoformat` as its exact inverse: the same
  lossless round-trip contract the Python pair provides at microsecond
  precision.  BSON datetime encoding truncates to whole milliseconds,
  which `truncMs` models.
* Python exceptions are `Except` / error-flag results; the spec's error
  taxonomy names (`RecordNotFoundError`, `EmptyUploadError`, ...) label the
  constructors standing for the exceptions the code raises.
-/

/-- Microseconds since the epoch, the precision of a Python `datetime`. -/
abbrev DateTime := Nat

/-- Raw file content (`bytes`), one `Nat` per byte. -/
abbrev Bytes := List Nat

/-- Decimal digit characters used by the modelled `isoformat` rendering. -/
def digitChar (d : Nat) : Char :=
  match d with
  | 0 => '0' | 1 => '1' | 2 => '2' | 3 => '3' | 4 => '4'
  | 5 => '5' | 6 => '6' | 7 => '7' | 8 => '8' | _ => '9'

/-- Little-endian base-10 digits, computed with explicit fuel so that the
definition evaluates by kernel reduction. -/
def decDigitsAux : Nat → Nat → List Nat
  | 0, _ => []
  | _ + 1, 0 => []
  | fuel + 1, n + 1 => ((n + 1) % 10) :: decDigitsAux fuel ((n + 1) / 10)

/-- Little-endian base-10 digits of `n` (`n` itself is enough fuel). -/
def decDigits (n : Nat) : List Nat := decDigitsAux n n

/-- Model of `datetime.isoformat`: an injective decimal rendering of the
microsecond count (most significant digit first). -/
def isoformat (t : DateTime) : String :=
  String.mk (((decDigits t).reverse).map digitChar)

/-- Model of `datetime.fromisoformat`: exact inverse of `isoformat`. -/
def fromisoformat (s : String) : DateTime :=
  s.data.foldl (fun a c => 10 * a + (c.toNat - 48)) 0

/-- A `pathlib.Path`: whether it is absolute, plus its `parts`. -/
structure MPath where
  absolute : Bool
  parts : List String
deriving DecidableEq

/-- Python `Path.name` of a directory: its last segment (empty if none). -/
def dirName (p : MPath) : String := p.parts.getLast?.getD ""

/-- Python `Path.parent`: drop the last segment. -/
def parentDir (p : MPath) : MPath := ⟨p.absolute, p.parts.dropLast⟩

/-- Python `base / rel`: append segments (an absolute right operand wins). -/
def joinPath (base rel : MPath) : MPath :=
  if rel.absolute then rel else ⟨base.absolute, base.parts ++ rel.parts⟩

/-- Python `p.relative_to(other)` in the always-successful case the code
exercises (`other.parts` is a prefix of `p.parts`): drop the prefix. -/
def relativeTo (p other : MPath) : MPath :=
  ⟨false, p.parts.drop other.parts.length⟩

/-- The file system: a finite-support map from path to byte content,
`none` meaning the file does not exist. -/
abbrev Fs := MPath → Option Bytes

/-- The empty file system. -/
def fsEmpty : Fs := fun _ => none

/-- Remove the entry stored at `p` (no-op on a missing entry). -/
def fsErase (fs : Fs) (p : MPath) : Fs :=
  fun q => if q = p then none else fs q

/-- Python `Path.write_bytes`: create or overwrite the file at `p`. -/
def fsWrite (fs : Fs) (p : MPath) (b : Bytes) : Fs :=
  fun q => if q = p then some b else fs q

/-- Metadata of one persisted photo (`StoredPhoto` pydantic model). -/
structure StoredPhoto where
  id : String
  filename : String
  content_type : String
  size : Nat
  path : MPath
deriving DecidableEq

/-- An upload as handed to `PhotoStorage.persist`: declared filename and
content type (either may be missing or empty) plus the raw bytes. -/
structure Upload where
  filename : Option String
  content_type : Option String
  content : Bytes
deriving DecidableEq

/-- Errors of the persistence layer, named after the spec's taxonomy. -/
inductive StorageError
  /-- `EmptyUploadError`: an uploaded file had zero bytes (HTTP 400). -/
  | emptyUpload
  /-- `PhotoNotFoundError`: `FileNotFoundError` from reading a resolved path. -/
  | photoNotFound
deriving DecidableEq

/-- `PhotoStorage._resolve_path`: absolute paths pass through; a relative
path whose first segment is the storage root's own name resolves against
the root's parent; any other relative path resolves against the root. -/
def resolve_path (baseDir : MPath) (path : MPath) : MPath :=
  if path.absolute then path
  else if path.parts.head? = some (dirName baseDir) then
    joinPath (parentDir baseDir) path
  else joinPath baseDir path

/-- Python `or` fallback on strings: an absent or empty value yields the
default. -/
def orElseStr (v : Option String) (dflt : String) : String :=
  match v with
  | none => dflt
  | some s => if s = "" then dflt else s

/-- Split a character list on a separator (groups between separators). -/
def splitOnChar (sep : Char) : List Char → List (List Char)
  | [] => [[]]
  | c :: rest =>
    let r := splitOnChar sep rest
    if c = sep then [] :: r
    else
      match r with
      | [] => [[c]]
      | g :: gs => (c :: g) :: gs

/-- Last `/`-separated component of a path string (`Path(...).name`). -/
def lastComponent (s : String) : String :=
  String.mk (((splitOnChar '/' s.data).getLast?).getD [])

/-- `pathlib.PurePath.suffix` of a path string: the final component's text
from its last dot onward, empty when the dot is leading, trailing or
absent. -/
def pathSuffix (s : String) : String :=
  let cs := (lastComponent s).data
  match cs.reverse.findIdx? (fun c => decide (c = '.')) with
  | none => ""
  | some j =>
    let i := cs.length - 1 - j
    if 0 < i ∧ i < cs.length - 1 then String.mk (cs.drop i) else ""

/-- Extension chosen by `persist`: the declared filename's suffix, or
`.jpg` when there is none. -/
def uploadExtension (u : Upload) : String :=
  let e := pathSuffix (u.filename.getD "")
  if e = "" then ".jpg" else e

/-- `PhotoStorage.persist`, one upload at a time: an empty upload raises
before its own write; otherwise a fresh id `ids k` names the file, the
bytes are written under the storage root, and the recorded path is the
destination relative to the root's parent.  The filesystem reflecting the
writes made before a failure is returned alongside the result. -/
def persist (baseDir : MPath) (ids : Nat → String) :
    Nat → Fs → List Upload → Except StorageError (List (StoredPhoto × Bytes)) × Fs
  | _, fs, [] => (.ok [], fs)
  | k, fs, u :: rest =>
    if u.content = [] then (.error .emptyUpload, fs)
    else
      let extension := uploadExtension u
      let photo_id := ids k
      let generated_name := photo_id ++ extension
      let destination := joinPath baseDir ⟨false, [generated_name]⟩
      let fs' := fsWrite fs destination u.content
      let stored : StoredPhoto :=
        { id := photo_id
          filename := orElseStr u.filename generated_name
          content_type := orElseStr u.content_type "application/octet-stream"
          size := u.content.length
          path := relativeTo destination (parentDir baseDir) }
      match persist baseDir ids (k + 1) fs' rest with
      | (.ok tail, fs'') => (.ok ((stored, u.content) :: tail), fs'')
      | (.error e, fs'') => (.error e, fs'')

/-- `PhotoStorage.load_bytes`: read the resolved path, `PhotoNotFoundError`
when the file is absent. -/
def load_bytes (baseDir : MPath) (fs : Fs) (photo : StoredPhoto) : Except StorageError Bytes :=
  match fs (resolve_path baseDir photo.path) with
  | some b => .ok b
  | none => .error .photoNotFound

/-- `load_bytes` over a list of photos (the `kept_bytes` comprehension of
`update_story_photos`): the first missing file aborts with its error. -/
def loadMany (baseDir : MPath) (fs : Fs) : List StoredPhoto → Except StorageError (List Bytes)
  | [] => .ok []
  | p :: rest =>
    match load_bytes baseDir fs p with
    | .error e => .error e
    | .ok b =>
      match loadMany baseDir fs rest with
      | .error e => .error e
      | .ok bs => .ok (b :: bs)

/-- `PhotoStorage.delete`: unlink the resolved path, swallowing
`FileNotFoundError` (a missing file is already-satisfied success). -/
def photoDelete (baseDir : MPath) (fs : Fs) (photo : StoredPhoto) : Fs :=
  match fs (resolve_path baseDir photo.path) with
  | some _ => fsErase fs (resolve_path baseDir photo.path)
  | none => fs

/-- `PhotoStorage.delete_many`: `delete` applied to each photo in turn. -/
def photoDeleteMany (baseDir : MPath) (fs : Fs) (photos : List StoredPhoto) : Fs :=
  photos.foldl (photoDelete baseDir) fs

/-- A story record of the file-backed variant (`StoryRecord` pydantic
model with a required client-supplied `id`). -/
structure StoryRecord where
  id : String
  date : String
  weather : String
  location : String
  photos : List StoredPhoto
  story : Option String
  created_at : DateTime
  updated_at : DateTime
deriving DecidableEq

/-- A story document of the file-backed JSON array: the dict produced by
`StoryRepository._serialize`, timestamps rendered through `isoformat`. -/
structure StoryDoc where
  id : String
  date : String
  weather : String
  location : String
  photos : List StoredPhoto
  story : Option String
  created_at : String
  updated_at : String
deriving DecidableEq

/-- Repository-level errors, named after the spec's taxonomy. -/
inductive RepoError
  /-- `RecordNotFoundError`: `update` matched no stored document. -/
  | recordNotFound
  /-- `KeyError("Story ID is required for update")` in the document-store
  variant when the record carries no usable id. -/
  | idRequired
  /-- Duplicate `_id` rejected by the document store's unique index. -/
  | duplicateKey
deriving DecidableEq

/-- `StoryRepository._serialize` (file-backed): `model_dump` with the two
timestamps replaced by their `isoformat` strings. -/
def fileSerialize (r : StoryRecord) : StoryDoc :=
  { id := r.id, date := r.date, weather := r.weather, location := r.location
    photos := r.photos, story := r.story
    created_at := isoformat r.created_at
    updated_at := isoformat r.updated_at }

/-- `StoryRepository._deserialize` (file-backed): parse the two timestamp
strings back with `fromisoformat`. -/
def fileDeserialize (d : StoryDoc) : StoryRecord :=
  { id := d.id, date := d.date, weather := d.weather, location := d.location
    photos := d.photos, story := d.story
    created_at := fromisoformat d.created_at
    updated_at := fromisoformat d.updated_at }

/-- The file-backed store: the parsed contents of `data/stories.json`. -/
abbrev FileStore := List StoryDoc

/-- `StoryRepository.add` (file-backed): read all, append the serialized
record, rewrite atomically under the lock. -/
def fileAdd (store : FileStore) (r : StoryRecord) : FileStore :=
  store ++ [fileSerialize r]

/-- `StoryRepository.list` (file-backed): deserialize every document in
file order. -/
def fileList (store : FileStore) : List StoryRecord :=
  store.map fileDeserialize

/-- `StoryRepository.get` (file-backed): first document with a matching
id, deserialized; `none` when absent. -/
def fileGet (store : FileStore) (story_id : String) : Option StoryRecord :=
  (store.find? fun d => decide (d.id = story_id)).map fileDeserialize

/-- Replace the first document whose id matches the record's id, if any. -/
def replaceFirst (store : FileStore) (r : StoryRecord) : Option FileStore :=
  match store with
  | [] => none
  | d :: rest =>
    if d.id = r.id then some (fileSerialize r :: rest)
    else (replaceFirst rest r).map (d :: ·)

/-- `StoryRepository.update` (file-backed): full replace of the first
matching document under the lock; when nothing matches the loop falls
through to `raise KeyError(...)` and the file is never rewritten.  The
error flag and the resulting store contents are returned. -/
def fileUpdate (store : FileStore) (r : StoryRecord) : Option RepoError × FileStore :=
  match replaceFirst store r with
  | some store' => (none, store')
  | none => (some .recordNotFound, store)

/-- A story record of the document-store variant (`StoryRecord` pydantic
model in `memory-garden/main.py`, whose `id` is `Optional[str] = None`). -/
structure MStoryRecord where
  id : Option String
  date : String
  weather : String
  location : String
  photos : List StoredPhoto
  story : Option String
  created_at : DateTime
  updated_at : DateTime
deriving DecidableEq

/-- The dict produced by the document-store `_serialize`:
`model_dump(mode="python", exclude_none=True)` with `id` renamed to
`_id`.  `none` in `mid` or `story` means the key is absent from the dict
(`exclude_none` never stores a `None` value). -/
structure MPayload where
  mid : Option String
  date : String
  weather : String
  location : String
  photos : List StoredPhoto
  story : Option String
  created_at : DateTime
  updated_at : DateTime
deriving DecidableEq

/-- A BSON document as stored in the collection: `_id` is always present
and the two datetimes have been truncated to BSON's millisecond
precision.  `story = none` means the document has no `story` key. -/
structure MDoc where
  mid : String
  date : String
  weather : String
  location : String
  photos : List StoredPhoto
  story : Option String
  created_at : DateTime
  updated_at : DateTime
deriving DecidableEq

/-- BSON datetime encoding keeps whole milliseconds only. -/
def truncMs (t : DateTime) : DateTime := 1000 * (t / 1000)

/-- The document collection. -/
abbrev MColl := List MDoc

/-- `StoryRepository._serialize` (document-store):
`model_dump(exclude_none=True)`, then move `id` (when present) to `_id`. -/
def mserialize (r : MStoryRecord) : MPayload :=
  { mid := r.id, date := r.date, weather := r.weather, location := r.location
    photos := r.photos, story := r.story
    created_at := r.created_at, updated_at := r.updated_at }

/-- Errors raised while rebuilding a `StoryRecord` from a stored document. -/
inductive DeserializeError
  /-- Pydantic `ValidationError`: the stored document has no `story` key and
  `StoryRecord.story` has no default value. -/
  | missingStoryField
deriving DecidableEq

/-- `StoryRepository._deserialize` (document-store): move `_id` back to
`id` and construct `StoryRecord(**data)`.  Every remaining model field is
required, so a document without a `story` key fails validation. -/
def mdeserialize (d : MDoc) : Except DeserializeError MStoryRecord :=
  match d.story with
  | none => .error .missingStoryField
  | some s =>
    .ok { id := some d.mid, date := d.date, weather := d.weather
          location := d.location, photos := d.photos, story := some s
          created_at := d.created_at, updated_at := d.updated_at }

/-- BSON encoding of a payload under a definite `_id`: datetimes are
truncated to milliseconds by the driver. -/
def bsonDoc (rid : String) (p : MPayload) : MDoc :=
  { mid := rid, date := p.date, weather := p.weather, location := p.location
    photos := p.photos, story := p.story
    created_at := truncMs p.created_at, updated_at := truncMs p.updated_at }

/-- `collection.insert_one`: appends, except that a duplicate `_id` is
rejected by the unique index on `_id`. -/
def minsertOne (coll : MColl) (doc : MDoc) : Except RepoError MColl :=
  if coll.any (fun d => decide (d.mid = doc.mid)) then .error .duplicateKey
  else .ok (coll ++ [doc])

/-- Effective id chosen by the document-store `add`: the serialized `_id`
when it is present and truthy, otherwise a freshly generated hex id. -/
def effectiveId (freshId : String) (mid : Option String) : String :=
  match mid with
  | none => freshId
  | some s => if s = "" then freshId else s

/-- `StoryRepository.add` (document-store): serialize, fill in a missing
`_id` with a fresh `uuid4().hex`, insert, and return the record with its
final id attached. -/
def madd (coll : MColl) (freshId : String) (r : MStoryRecord) :
    Except RepoError (MColl × MStoryRecord) :=
  let p := mserialize r
  let rid := effectiveId freshId p.mid
  match minsertOne coll (bsonDoc rid p) with
  | .error e => .error e
  | .ok coll' => .ok (coll', { r with id := some rid })

/-- `StoryRepository.list` (document-store): deserialize every document of
`find({})`; the first document failing validation aborts the listing. -/
def mlist : MColl → Except DeserializeError (List MStoryRecord)
  | [] => .ok []
  | d :: rest =>
    match mdeserialize d with
    | .error e => .error e
    | .ok r =>
      match mlist rest with
      | .error e => .error e
      | .ok rs => .ok (r :: rs)

/-- `StoryRepository.get` (document-store): an empty id is answered with
`None` up front; otherwise `find_one({"_id": story_id})`, deserialized. -/
def mget (coll : MColl) (story_id : String) :
    Except DeserializeError (Option MStoryRecord) :=
  if story_id = "" then .ok none
  else
    match coll.find? (fun d => decide (d.mid = story_id)) with
    | none => .ok none
    | some d => (mdeserialize d).map some

/-- Replace the first document whose `_id` matches, if any. -/
def mreplaceFirst (coll : MColl) (rid : String) (doc : MDoc) : Option MColl :=
  match coll with
  | [] => none
  | d :: rest =>
    if d.mid = rid then some (doc :: rest)
    else (mreplaceFirst rest rid doc).map (d :: ·)

/-- `StoryRepository.update` (document-store): a falsy id raises
`KeyError("Story ID is required for update")`; otherwise
`replace_one({"_id": id}, serialized, upsert=False)`, and a zero
`matched_count` raises `KeyError(f"Story {id} not found")`.  The error
flag and the resulting collection are returned. -/
def mupdate (coll : MColl) (r : MStoryRecord) : Option RepoError × MColl :=
  match r.id with
  | none => (some .idRequired, coll)
  | some rid =>
    if rid = "" then (some .idRequired, coll)
    else
      match mreplaceFirst coll rid (bsonDoc rid (mserialize r)) with
      | some coll' => (none, coll')
      | none => (some .recordNotFound, coll)

/-- Mutable state visible to a file-backed endpoint handler: the photo /
audio filesystem and the JSON story store. -/
structure World where
  fs : Fs
  store : FileStore

/-- Failures surfaced by the endpoint handlers as HTTP errors. -/
inductive ApiError
  /-- 404: the story id is not in the store. -/
  | storyNotFound
  /-- 400, `InvalidSelectionError`: some `keep_photo_ids` entry does not
  belong to the story. -/
  | invalidSelection
  /-- 400, `EmptyUploadError` propagated from `persist`. -/
  | emptyUpload
  /-- 400: the update would leave the story with no photo at all, or the
  delete names no photo of the story. -/
  | noPhotos
  /-- 500: a kept photo's file is missing when its bytes are loaded. -/
  | photoLoad
  /-- 500: the repository write step itself failed. -/
  | repoFail
deriving DecidableEq

/-- `AUDIO_DIR / f"{story_id}_cantonese.mp3"`. -/
def audioPath (audioDir : MPath) (story_id : String) : MPath :=
  joinPath audioDir ⟨false, [story_id ++ "_cantonese.mp3"]⟩

/-- `_delete_audio_file`: unlink the audio file, ignoring
`FileNotFoundError`. -/
def deleteAudioFile (audioDir : MPath) (fs : Fs) (story_id : String) : Fs :=
  match fs (audioPath audioDir story_id) with
  | some _ => fsErase fs (audioPath audioDir story_id)
  | none => fs

/-- `update_story_photos` (file-backed variant), modelled from the fetch of
the story onward with `keep_photo_ids` already run through
`_parse_id_list` (`keepIds`) and the narration collaborator's reply given
as `storyText`; `ids`/`k` supply the `uuid4().hex` ids drawn by `persist`
and `now` is the `datetime.now(timezone.utc)` of the call. -/
def updateStoryPhotos (uploadDir audioDir : MPath) (ids : Nat → String) (k : Nat)
    (storyText : String) (now : DateTime) (w : World) (story_id : String)
    (date weather location : Option String) (keepIds : List String)
    (uploads : List Upload) : Except ApiError (World × StoryRecord) :=
  match fileGet w.store story_id with
  | none => .error .storyNotFound
  | some story =>
    let updated_date := orElseStr date story.date
    let updated_weather := orElseStr weather story.weather
    let updated_location := orElseStr location story.location
    let keep_set : Finset String :=
      if keepIds = [] then (story.photos.map StoredPhoto.id).toFinset
      else keepIds.toFinset
    let photos_to_keep := story.photos.filter (fun p => decide (p.id ∈ keep_set))
    if keepIds ≠ [] ∧ photos_to_keep.length ≠ keep_set.card then
      .error .invalidSelection
    else
      let pres := persist uploadDir ids k w.fs uploads
      match pres.1 with
      | .error _ => .error .emptyUpload
      | .ok new_photos_with_bytes =>
        let fs1 := pres.2
        match loadMany uploadDir fs1 photos_to_keep with
        | .error _ => .error .photoLoad
        | .ok kept_bytes =>
          let new_bytes := new_photos_with_bytes.map (·.2)
          if kept_bytes = [] ∧ new_bytes = [] then .error .noPhotos
          else
            let fs2 := deleteAudioFile audioDir fs1 story.id
            let removed_photos := story.photos.filter (fun p => decide (p.id ∉ keep_set))
            let fs3 := if removed_photos = [] then fs2
              else photoDeleteMany uploadDir fs2 removed_photos
            let updated_record : StoryRecord :=
              { story with
                date := updated_date, weather := updated_weather
                location := updated_location
                photos := photos_to_keep ++ new_photos_with_bytes.map (·.1)
                story := some storyText
                updated_at := now }
            let ures := fileUpdate w.store updated_record
            match ures.1 with
            | some _ => .error .repoFail
            | none => .ok (⟨fs3, ures.2⟩, updated_record)

/-- `delete_story_photos` (file-backed variant), modelled from the fetch of
the story onward with `photoIds` already run through `_parse_id_list`
(`idsToRemove`); `now` is the `datetime.utcnow()` of the call. -/
def deleteStoryPhotosFile (uploadDir audioDir : MPath) (now : DateTime) (w : World)
    (story_id : String) (idsToRemove : List String) :
    Except ApiError (World × StoryRecord) :=
  match fileGet w.store story_id with
  | none => .error .storyNotFound
  | some story =>
    let ids_to_remove : Finset String := idsToRemove.toFinset
    if ids_to_remove = ∅ then .error .noPhotos
    else
      let photos_to_delete := story.photos.filter (fun p => decide (p.id ∈ ids_to_remove))
      if photos_to_delete = [] then .error .noPhotos
      else
        let remaining_photos := story.photos.filter (fun p => decide (p.id ∉ ids_to_remove))
        let fs1 := photoDeleteMany uploadDir w.fs photos_to_delete
        let fs2 := deleteAudioFile audioDir fs1 story.id
        let updated_record : StoryRecord :=
          { story with photos := remaining_photos, story := none, updated_at := now }
        let ures := fileUpdate w.store updated_record
        match ures.1 with
        | some _ => .error .repoFail
        | none => .ok (⟨fs2, ures.2⟩, updated_record)

/-- `delete_story_photos` (document-store variant): as the file-backed one
but reading and writing the document collection, whose `get` can itself
fail while deserializing (a propagated `ValidationError` is `repoFail`). -/
def deleteStoryPhotosMongo (uploadDir audioDir : MPath) (now : DateTime) (fs : Fs)
    (coll : MColl) (story_id : String) (idsToRemove : List String) :
    Except ApiError (Fs × MColl × MStoryRecord) :=
  match mget coll story_id with
  | .error _ => .error .repoFail
  | .ok none => .error .storyNotFound
  | .ok (some story) =>
    let ids_to_remove : Finset String := idsToRemove.toFinset
    if ids_to_remove = ∅ then .error .noPhotos
    else
      let photos_to_delete := story.photos.filter (fun p => decide (p.id ∈ ids_to_remove))
      if photos_to_delete = [] then .error .noPhotos
      else
        let remaining_photos := story.photos.filter (fun p => decide (p.id ∉ ids_to_remove))
        let fs1 := photoDeleteMany uploadDir fs photos_to_delete
        -- a story returned by `get` always carries its `_id`
        let fs2 := deleteAudioFile audioDir fs1 (story.id.getD "")
        let updated_record : MStoryRecord :=
          { story with photos := remaining_photos, story := none, updated_at := now }
        let ures := mupdate coll updated_record
        match ures.1 with
        | some _ => .error .repoFail
        | none => .ok (fs2, ures.2, updated_record)

/-- Position of one request handler inside `StoryRepository.add` (file
variant): acquire `self._lock`, `_read_all`, `_write_all` of the snapshot
plus its own document, release.  `readDone` carries the snapshot the
thread took while holding the lock. -/
inductive Phase
  | ready
  | locked
  | readDone (snap : FileStore)
  | written
  | done
deriving DecidableEq

/-- Global state of the concurrent-`add` system: the stories file, the
process-wide lock (`some t` when thread `t` holds it) and each thread's
phase. -/
structure ConcState where
  store : FileStore
  lock : Option Nat
  phases : List Phase
deriving DecidableEq

/-- Phase of thread `t` (threads outside the list read as `done` so that
quantifiers over `t < n` are unaffected). -/
def phAt (s : ConcState) (t : Nat) : Phase := s.phases.getD t .done

/-- One scheduler step giving thread `t` a chance to run.  A thread whose
`acquire` finds the lock held blocks (the state is unchanged); otherwise
it performs the next action of `add(recs t)`. -/
def connStep (recs : Nat → StoryRecord) (s : ConcState) (t : Nat) : ConcState :=
  match phAt s t with
  | .ready =>
    match s.lock with
    | none => { s with lock := some t, phases := s.phases.set t .locked }
    | some _ => s
  | .locked => { s with phases := s.phases.set t (.readDone s.store) }
  | .readDone snap =>
    { s with store := snap ++ [fileSerialize (recs t)]
             phases := s.phases.set t .written }
  | .written => { s with lock := none, phases := s.phases.set t .done }
  | .done => s

/-- Run a schedule (an arbitrary interleaving of thread ids). -/
def connRun (recs : Nat → StoryRecord) (s : ConcState) (sched : List Nat) : ConcState :=
  sched.foldl (connStep recs) s

/-- Initial state for `n` concurrent `add` calls on an empty store. -/
def connInit (n : Nat) : ConcState :=
  ⟨[], none, List.replicate n .ready⟩

/-- Whether this phase has already appended its document to the store. -/
def contributed : Phase → Bool
  | .written => true
  | .done => true
  | _ => false

/-- The spec's own wording of the three-way path resolution rule, written
independently of `resolve_path` for comparison: absolute paths are
returned unchanged; a first segment equal to the storage root directory's
name resolves the path against the root's parent; any other path resolves
against the root. -/
def resolveSpecRule (baseDir path : MPath) : MPath :=
  match path.absolute, path.parts with
  | true, _ => path
  | false, s :: _ =>
    if s = dirName baseDir then joinPath (parentDir baseDir) path
    else joinPath baseDir path
  | false, [] => joinPath baseDir path

/-- Sample storage root used by concrete test instances. -/
def upDir : MPath := ⟨false, ["uploads"]⟩

/-- Sample audio directory used by concrete test instances. -/
def audDir : MPath := ⟨false, ["audio"]⟩

/-- Sample stored photo `p1` with its file under the storage root. -/
def ph1 : StoredPhoto := ⟨"p1", "a.jpg", "image/jpeg", 1, ⟨false, ["uploads", "a.jpg"]⟩⟩

/-- Sample stored photo `p2` with its file under the storage root. -/
def ph2 : StoredPhoto := ⟨"p2", "b.jpg", "image/jpeg", 1, ⟨false, ["uploads", "b.jpg"]⟩⟩

/-- Sample story owning `ph1` and `ph2`. -/
def story0 : StoryRecord :=
  ⟨"s", "2024-05-01", "sunny", "Park", [ph1, ph2], some "t", 5, 5⟩

/-- Sample world: both photo files on disk, `story0` in the JSON store. -/
def world0 : World :=
  ⟨fsWrite (fsWrite fsEmpty (resolve_path upDir ph1.path) [1])
      (resolve_path upDir ph2.path) [2],
    [fileSerialize story0]⟩

/-- Document-store record fixture whose `story` has been cleared. -/
def mrec0 : MStoryRecord := ⟨some "s", "d", "w", "l", [], none, 5, 5⟩

/-- Document-store story fixture with a present `story` and two photos. -/
def mstory0 : MStoryRecord := ⟨some "s", "2024-05-01", "sunny", "Park", [ph1, ph2], some "t", 5, 5⟩

/-- Document collection fixture holding `mstory0`. -/
def mcoll0 : MColl := [bsonDoc "s" (mserialize mstory0)]

/-- Timestamps agree ignoring their sub-second part (whole seconds of the
microsecond count are equal). -/
def subSecEq (a b : DateTime) : Prop := a / 1000000 = b / 1000000

/-- Nonempty upload fixture. -/
def upl1 : Upload := ⟨some "a.jpg", some "image/jpeg", [1]⟩

/-- Empty upload fixture. -/
def upl2 : Upload := ⟨some "b.jpg", none, []⟩

/-- The `StoredPhoto` metadata `persist` records for upload `u` under the
id `ids k`. -/
def persistPhoto (base : MPath) (ids : Nat → String) (k : Nat) (u : Upload) : StoredPhoto :=
  { id := ids k
    filename := orElseStr u.filename (ids k ++ uploadExtension u)
    content_type := orElseStr u.content_type "application/octet-stream"
    size := u.content.length
    path := relativeTo (joinPath base ⟨false, [ids k ++ uploadExtension u]⟩) (parentDir base) }

/-- Second nonempty upload fixture (no declared filename or type). -/
def upl3 : Upload := ⟨none, none, [2, 3]⟩

/-- Concrete stand-ins for two distinct `uuid4().hex` values. -/
def wids : Nat → String :=
  fun i => if i = 0 then "aaaaaaaaaaaaaaaaaaaaaaaaaaaaaaaa" else "bbbbbbbbbbbbbbbbbbbbbbbbbbbbbbbb"

/-- Whether a thread in this phase is in its critical section (holds the
lock). -/
def activePhase : Phase → Prop
  | .locked => True
  | .readDone _ => True
  | .written => True
  | _ => False

/-- Invariant of the concurrent-`add` system: the phase list covers the
`n` threads; the stories file holds exactly one serialized document per
thread that has performed its write, in some order; the lock holder (if
any) is mid-`add`, and a `readDone` holder's snapshot is the current file;
conversely every mid-`add` thread is the lock holder. -/
def ConcInv (n : Nat) (recs : Nat → StoryRecord) (s : ConcState) : Prop :=
  s.phases.length = n
  ∧ List.Perm s.store
      (((List.range n).filter (fun u => contributed (phAt s u))).map
        (fun u => fileSerialize (recs u)))
  ∧ (∀ t, s.lock = some t →
      t < n ∧ (phAt s t = .locked ∨ phAt s t = .readDone s.store ∨ phAt s t = .written))
  ∧ (∀ u, u < n → activePhase (phAt s u) → s.lock = some u)

/-- Records added by the two concurrent witness threads. -/
def wrecs : Nat → StoryRecord :=
  fun t => if t = 0 then story0 else { story0 with id := "s2" }

theorem decDigitsAux_eq (fuel : Nat) :
    ∀ n : Nat, n ≤ fuel → decDigitsAux fuel n = Nat.digits 10 n := by
  induction fuel with
  | zero => intro n hn; interval_cases n; simp [decDigitsAux]
  | succ fuel ih =>
    intro n hn
    match n with
    | 0 => simp [decDigitsAux]
    | m + 1 =>
      rw [decDigitsAux, ih ((m + 1) / 10) (by omega),
        show Nat.digits 10 (m + 1) = (m + 1) % 10 :: Nat.digits 10 ((m + 1) / 10) from
          Nat.digits_def' (by norm_num) (Nat.succ_pos m)]

theorem decDigits_eq (n : Nat) : decDigits n = Nat.digits 10 n :=
  decDigitsAux_eq n n le_rfl

theorem digitChar_toNat {d : Nat} (h : d < 10) : (digitChar d).toNat - 48 = d := by
  interval_cases d <;> decide

theorem foldl_digits (ds : List Nat) : ∀ a : Nat, (∀ d ∈ ds, d < 10) →
    List.foldl (fun x c => 10 * x + (c.toNat - 48)) a ((ds.reverse).map digitChar)
      = a * 10 ^ ds.length + Nat.ofDigits 10 ds := by
  induction ds with
  | nil => intro a _; simp
  | cons d tl ih =>
    intro a h
    have hd : d < 10 := h d (List.mem_cons_self d tl)
    have htl : ∀ x ∈ tl, x < 10 := fun x hx => h x (List.mem_cons_of_mem _ hx)
    rw [List.reverse_cons, List.map_append, List.foldl_append, ih a htl]
    simp only [List.map_cons, List.map_nil, List.foldl_cons, List.foldl_nil,
      Nat.ofDigits_cons, List.length_cons, digitChar_toNat hd]
    ring

theorem fromisoformat_isoformat (t : DateTime) : fromisoformat (isoformat t) = t := by
  have h : ∀ d ∈ Nat.digits 10 t, d < 10 :=
    fun d hd => Nat.digits_lt_base (by norm_num) hd
  have := foldl_digits (Nat.digits 10 t) 0 h
  simpa [fromisoformat, isoformat, decDigits_eq, Nat.ofDigits_digits] using this

theorem fsErase_self (fs : Fs) (p : MPath) : fsErase fs p p = none := by
  simp [fsErase]

theorem fsErase_ne (fs : Fs) (p q : MPath) (h : q ≠ p) : fsErase fs p q = fs q := by
  simp [fsErase, h]

theorem fsWrite_self (fs : Fs) (p : MPath) (b : Bytes) : fsWrite fs p b p = some b := by
  simp [fsWrite]

theorem fsWrite_ne (fs : Fs) (p q : MPath) (b : Bytes) (h : q ≠ p) :
    fsWrite fs p b q = fs q := by
  simp [fsWrite, h]

/-- C7: for every stored path string, `PhotoStorage._resolve_path` obeys
the spec's three-way rule: absolute paths are returned unchanged; a
relative path whose first segment equals the storage root directory's
name is resolved against the root's parent directory; any other relative
path is resolved against the storage root. -/
theorem claim_C7_resolve_three_way (baseDir path : MPath) :
    resolve_path baseDir path = resolveSpecRule baseDir path := by
  rcases path with ⟨abs, parts⟩
  cases abs with
  | true => simp [resolve_path, resolveSpecRule]
  | false =>
    cases parts with
    | nil => simp [resolve_path, resolveSpecRule]
    | cons s rest =>
      by_cases h : s = dirName baseDir <;>
        simp [resolve_path, resolveSpecRule, h]

theorem replaceFirst_eq_none (store : FileStore) (r : StoryRecord)
    (h : ∀ d ∈ store, d.id ≠ r.id) : replaceFirst store r = none := by
  induction store with
  | nil => rfl
  | cons d rest ih =>
    have hd : d.id ≠ r.id := h d (List.mem_cons_self d rest)
    have hrest : ∀ x ∈ rest, x.id ≠ r.id := fun x hx => h x (List.mem_cons_of_mem _ hx)
    simp [replaceFirst, hd, ih hrest]

theorem mreplaceFirst_eq_none (coll : MColl) (rid : String) (doc : MDoc)
    (h : ∀ d ∈ coll, d.mid ≠ rid) : mreplaceFirst coll rid doc = none := by
  induction coll with
  | nil => rfl
  | cons d rest ih =>
    have hd : d.mid ≠ rid := h d (List.mem_cons_self d rest)
    have hrest : ∀ x ∈ rest, x.mid ≠ rid := fun x hx => h x (List.mem_cons_of_mem _ hx)
    simp [mreplaceFirst, hd, ih hrest]

/-- C1: `update` on an id absent from the store fails with
`RecordNotFoundError` and leaves the store exactly as it was, in both the
file-backed variant (the loop falls through to `raise KeyError` without
calling `_write_all`) and the document-store variant (`replace_one`
matched no document, so the collection is untouched). -/
theorem claim_C1_update_missing_id :
    (∀ (store : FileStore) (r : StoryRecord), (∀ d ∈ store, d.id ≠ r.id) →
      fileUpdate store r = (some RepoError.recordNotFound, store))
    ∧ (∀ (coll : MColl) (r : MStoryRecord) (rid : String),
      r.id = some rid → rid ≠ "" → (∀ d ∈ coll, d.mid ≠ rid) →
      mupdate coll r = (some RepoError.recordNotFound, coll)) := by
  constructor
  · intro store r h
    simp [fileUpdate, replaceFirst_eq_none store r h]
  · intro coll r rid hid hne h
    simp [mupdate, hid, hne, mreplaceFirst_eq_none coll rid _ h]

/-- C1 witness: a concrete store holding one document and an update aimed
at a different id, in both variants. -/
theorem claim_C1_witness :
    fileUpdate [⟨"a", "d", "w", "l", [], none, "0", "0"⟩]
        ⟨"b", "d", "w", "l", [], none, 0, 0⟩
      = (some RepoError.recordNotFound, [⟨"a", "d", "w", "l", [], none, "0", "0"⟩])
    ∧ mupdate [⟨"a", "d", "w", "l", [], none, 0, 0⟩]
        ⟨some "b", "d", "w", "l", [], none, 0, 0⟩
      = (some RepoError.recordNotFound, [⟨"a", "d", "w", "l", [], none, 0, 0⟩]) :=
  ⟨claim_C1_update_missing_id.1 _ _ (by decide),
   claim_C1_update_missing_id.2 _ _ "b" rfl (by decide) (by decide)⟩

theorem photoDelete_missing (baseDir : MPath) (fs : Fs) (p : StoredPhoto)
    (h : fs (resolve_path baseDir p.path) = none) : photoDelete baseDir fs p = fs := by
  simp [photoDelete, h]

theorem photoDelete_result (baseDir : MPath) (fs : Fs) (p : StoredPhoto) :
    photoDelete baseDir fs p (resolve_path baseDir p.path) = none := by
  unfold photoDelete
  cases h : fs (resolve_path baseDir p.path) with
  | none => exact h
  | some b => simp [fsErase]

theorem photoDelete_none_mono (baseDir : MPath) (fs : Fs) (p : StoredPhoto) (q : MPath)
    (h : fs q = none) : photoDelete baseDir fs p q = none := by
  unfold photoDelete
  cases hf : fs (resolve_path baseDir p.path) with
  | none => exact h
  | some b =>
    by_cases hq : q = resolve_path baseDir p.path
    · simp [fsErase, hq]
    · simp [fsErase, hq, h]

theorem photoDeleteMany_none_mono (baseDir : MPath) (photos : List StoredPhoto) :
    ∀ (fs : Fs) (q : MPath), fs q = none → photoDeleteMany baseDir fs photos q = none := by
  induction photos with
  | nil => intro fs q h; exact h
  | cons p rest ih =>
    intro fs q h
    exact ih (photoDelete baseDir fs p) q (photoDelete_none_mono baseDir fs p q h)

theorem photoDeleteMany_deletes (baseDir : MPath) (photos : List StoredPhoto) :
    ∀ (fs : Fs) (p : StoredPhoto), p ∈ photos →
      photoDeleteMany baseDir fs photos (resolve_path baseDir p.path) = none := by
  induction photos with
  | nil => intro fs p h; cases h
  | cons hd rest ih =>
    intro fs p hp
    rcases List.mem_cons.mp hp with heq | hmem
    · subst heq
      exact photoDeleteMany_none_mono baseDir rest (photoDelete baseDir fs p) _
        (photoDelete_result baseDir fs p)
    · exact ih (photoDelete baseDir fs hd) p hmem

/-- C9: `PhotoStorage.delete` on an already-removed path returns without
raising and leaves the filesystem untouched (the `FileNotFoundError` is
swallowed, so the missing file is treated as already-satisfied success);
and `delete_many` applies `delete` to every listed photo — one photo's
file being absent never aborts the rest, so after `delete_many` every
listed photo's resolved path is gone. -/
theorem claim_C9_delete_idempotent :
    (∀ (baseDir : MPath) (fs : Fs) (p : StoredPhoto),
      fs (resolve_path baseDir p.path) = none → photoDelete baseDir fs p = fs)
    ∧ (∀ (baseDir : MPath) (fs : Fs) (photos : List StoredPhoto) (p : StoredPhoto),
      p ∈ photos → photoDeleteMany baseDir fs photos (resolve_path baseDir p.path) = none) :=
  ⟨photoDelete_missing, fun baseDir fs photos p hp => photoDeleteMany_deletes baseDir photos fs p hp⟩

/-- C9 witness: two photos, the first one's file already missing, the
second present; `delete` on the first is a no-op and `delete_many` still
removes both paths. -/
theorem claim_C9_witness :
    (fsWrite fsEmpty ⟨false, ["uploads", "b.jpg"]⟩ [7]) (resolve_path ⟨false, ["uploads"]⟩
        (⟨"a", "a.jpg", "image/jpeg", 1, ⟨false, ["uploads", "a.jpg"]⟩⟩ : StoredPhoto).path) = none
    ∧ photoDelete ⟨false, ["uploads"]⟩ (fsWrite fsEmpty ⟨false, ["uploads", "b.jpg"]⟩ [7])
        ⟨"a", "a.jpg", "image/jpeg", 1, ⟨false, ["uploads", "a.jpg"]⟩⟩
      = fsWrite fsEmpty ⟨false, ["uploads", "b.jpg"]⟩ [7]
    ∧ photoDeleteMany ⟨false, ["uploads"]⟩ (fsWrite fsEmpty ⟨false, ["uploads", "b.jpg"]⟩ [7])
        [⟨"a", "a.jpg", "image/jpeg", 1, ⟨false, ["uploads", "a.jpg"]⟩⟩,
         ⟨"b", "b.jpg", "image/jpeg", 1, ⟨false, ["uploads", "b.jpg"]⟩⟩]
        (resolve_path ⟨false, ["uploads"]⟩ (⟨false, ["uploads", "b.jpg"]⟩ : MPath)) = none := by
  refine ⟨by decide, ?_, ?_⟩
  · exact claim_C9_delete_idempotent.1 _ _ _ (by decide)
  · exact claim_C9_delete_idempotent.2 _ _ _
      ⟨"b", "b.jpg", "image/jpeg", 1, ⟨false, ["uploads", "b.jpg"]⟩⟩ (by decide)

/-- C8: `created_at` is written at first insertion (`add` stores the
record's own `created_at`, rendered by `isoformat`) and no subsequent
mutation changes it: both `update_story_photos` and `delete_story_photos`
build their replacement record by `model_copy`, whose update dict never
contains `created_at`, so a successful call returns a record whose
`created_at` equals that of the stored story it started from. -/
theorem claim_C8_created_at_immutable :
    (∀ (store : FileStore) (r : StoryRecord),
      fileAdd store r = store ++ [fileSerialize r]
      ∧ (fileSerialize r).created_at = isoformat r.created_at)
    ∧ (∀ (uploadDir audioDir : MPath) (ids : Nat → String) (k : Nat) (storyText : String)
        (now : DateTime) (w : World) (story_id : String)
        (date weather location : Option String) (keepIds : List String)
        (uploads : List Upload) (story : StoryRecord) (w' : World) (r' : StoryRecord),
      fileGet w.store story_id = some story →
      updateStoryPhotos uploadDir audioDir ids k storyText now w story_id
          date weather location keepIds uploads = .ok (w', r') →
      r'.created_at = story.created_at)
    ∧ (∀ (uploadDir audioDir : MPath) (now : DateTime) (w : World) (story_id : String)
        (idsToRemove : List String) (story : StoryRecord) (w' : World) (r' : StoryRecord),
      fileGet w.store story_id = some story →
      deleteStoryPhotosFile uploadDir audioDir now w story_id idsToRemove = .ok (w', r') →
      r'.created_at = story.created_at) := by
  refine ⟨fun store r => ⟨rfl, rfl⟩, ?_, ?_⟩
  · intro uploadDir audioDir ids k storyText now w story_id date weather location
      keepIds uploads story w' r' hget heq
    simp only [updateStoryPhotos, hget] at heq
    repeat' split at heq
    all_goals
      first
        | exact Except.noConfusion heq
        | (injection heq with hpair
           simp only [Prod.mk.injEq] at hpair
           rw [← hpair.2])
  · intro uploadDir audioDir now w story_id idsToRemove story w' r' hget heq
    simp only [deleteStoryPhotosFile, hget] at heq
    repeat' split at heq
    all_goals
      first
        | exact Except.noConfusion heq
        | (injection heq with hpair
           simp only [Prod.mk.injEq] at hpair
           rw [← hpair.2])

/-- C8 witness: concrete successful runs of both mutation endpoints on
`world0`; each returns a record whose `created_at` is still `5`. -/
theorem claim_C8_witness :
    (∃ w' r', updateStoryPhotos upDir audDir (fun _ => "n1") 0 "new" 9 world0 "s"
        none none none ["p1"] [] = .ok (w', r') ∧ r'.created_at = 5)
    ∧ (∃ w' r', deleteStoryPhotosFile upDir audDir 9 world0 "s" ["p2"] = .ok (w', r')
        ∧ r'.created_at = 5) := by
  constructor
  · refine ⟨_, _, rfl, ?_⟩
    exact claim_C8_created_at_immutable.2.1 upDir audDir (fun _ => "n1") 0 "new" 9
      world0 "s" none none none ["p1"] [] story0 _ _ rfl rfl
  · refine ⟨_, _, rfl, ?_⟩
    exact claim_C8_created_at_immutable.2.2 upDir audDir 9 world0 "s" ["p2"]
      story0 _ _ rfl rfl

theorem effectiveId_ne_empty (freshId : String) (mid : Option String) (h : freshId ≠ "") :
    effectiveId freshId mid ≠ "" := by
  unfold effectiveId
  match mid with
  | none => exact h
  | some s =>
    by_cases hs : s = "" <;> simp [hs, h]

theorem mlist_error_of_mem (coll : MColl) (d : MDoc) (hd : d ∈ coll) (hs : d.story = none) :
    mlist coll = .error .missingStoryField := by
  induction coll with
  | nil => cases hd
  | cons a rest ih =>
    rcases List.mem_cons.mp hd with heq | hmem
    · subst heq
      simp [mlist, mdeserialize, hs]
    · unfold mlist
      cases hda : mdeserialize a with
      | error e => cases e; rfl
      | ok ra => rw [ih hmem]

/-- C10: in the document-store variant, serialization drops every `None`
field, so a record with an absent `story` (exactly what
`delete_story_photos` produces) is stored as a document with no `story`
key; `_deserialize` then cannot rebuild a `StoryRecord` from it, so both
`get` on that id and `list` fail with the pydantic validation error —
such a record cannot be read back. -/
theorem claim_C10_story_none_unreadable :
    (∀ (coll : MColl) (r : MStoryRecord) (freshId : String) (coll' : MColl)
        (r' : MStoryRecord),
      r.story = none → freshId ≠ "" →
      madd coll freshId r = .ok (coll', r') →
      (mserialize r).story = none
      ∧ coll' = coll ++ [bsonDoc (effectiveId freshId r.id) (mserialize r)]
      ∧ (bsonDoc (effectiveId freshId r.id) (mserialize r)).story = none
      ∧ r'.id = some (effectiveId freshId r.id)
      ∧ mget coll' (effectiveId freshId r.id) = .error .missingStoryField
      ∧ mlist coll' = .error .missingStoryField)
    ∧ (∀ (uploadDir audioDir : MPath) (now : DateTime) (fs : Fs) (coll : MColl)
        (story_id : String) (idsToRemove : List String) (story : MStoryRecord)
        (fs' : Fs) (coll' : MColl) (rec : MStoryRecord),
      mget coll story_id = .ok (some story) →
      deleteStoryPhotosMongo uploadDir audioDir now fs coll story_id idsToRemove
        = .ok (fs', coll', rec) →
      rec.story = none) := by
  constructor
  · intro coll r freshId coll' r' hstory hfresh heq
    simp only [madd, minsertOne] at heq
    split at heq
    · exact Except.noConfusion heq
    · rename_i collv hinsert
      injection heq with hpair
      simp only [Prod.mk.injEq] at hpair
      split at hinsert
      · exact Except.noConfusion hinsert
      · rename_i hany
        injection hinsert with hcollv
        have hcoll : coll ++ [bsonDoc (effectiveId freshId r.id) (mserialize r)] = coll' :=
          hcollv.trans hpair.1
        have hrid : { r with id := some (effectiveId freshId r.id) } = r' := hpair.2
        have hsnone : (mserialize r).story = none := hstory
        have heff := effectiveId_ne_empty freshId r.id hfresh
        have hnomatch : ∀ d ∈ coll, d.mid ≠ effectiveId freshId r.id := by
          intro d hd heqmid
          apply hany
          apply List.any_eq_true.mpr
          exact ⟨d, hd, by simpa [bsonDoc] using heqmid⟩
        refine ⟨hsnone, hcoll.symm, hstory, ?_, ?_, ?_⟩
        · rw [← hrid]
        · rw [← hcoll]
          unfold mget
          rw [if_neg heff]
          have hfind1 : coll.find? (fun d => decide (d.mid = effectiveId freshId r.id)) = none :=
            List.find?_eq_none.mpr (by intro x hx; simpa using hnomatch x hx)
          rw [List.find?_append, hfind1]
          simp [bsonDoc, mdeserialize, hsnone, Except.map]
        · rw [← hcoll]
          exact mlist_error_of_mem _ (bsonDoc (effectiveId freshId r.id) (mserialize r))
            (by simp) hstory
  · intro uploadDir audioDir now fs coll story_id idsToRemove story fs' coll' rec hget heq
    simp only [deleteStoryPhotosMongo, hget] at heq
    repeat' split at heq
    all_goals
      first
        | exact Except.noConfusion heq
        | (injection heq with hpair
           simp only [Prod.mk.injEq] at hpair
           rw [← hpair.2.2])

/-- C10 witness: a concrete cleared-story record really becomes unreadable
after `add`, and a concrete document-store `delete_story_photos` run
really clears `story`. -/
theorem claim_C10_witness :
    (∃ coll' r', madd [] "f" mrec0 = .ok (coll', r')
      ∧ mget coll' "s" = .error .missingStoryField
      ∧ mlist coll' = .error .missingStoryField)
    ∧ (∃ out, deleteStoryPhotosMongo upDir audDir 9 fsEmpty mcoll0 "s" ["p2"] = .ok out
      ∧ out.2.2.story = none) := by
  constructor
  · refine ⟨_, _, rfl, ?_, ?_⟩
    · exact (claim_C10_story_none_unreadable.1 [] mrec0 "f" _ _ rfl (by decide) rfl).2.2.2.2.1
    · exact (claim_C10_story_none_unreadable.1 [] mrec0 "f" _ _ rfl (by decide) rfl).2.2.2.2.2
  · refine ⟨_, rfl, ?_⟩
    exact claim_C10_story_none_unreadable.2 upDir audDir 9 fsEmpty mcoll0 "s" ["p2"]
      _ _ _ _ rfl rfl

theorem truncMs_subSecEq (t : DateTime) : subSecEq (truncMs t) t := by
  unfold subSecEq truncMs
  rw [show (1000000 : Nat) = 1000 * 1000 from rfl,
    Nat.mul_div_mul_left (t / 1000) 1000 (by norm_num),
    Nat.div_div_eq_div_mul]

theorem fileDeserialize_fileSerialize (r : StoryRecord) :
    fileDeserialize (fileSerialize r) = r := by
  unfold fileDeserialize fileSerialize
  rw [fromisoformat_isoformat, fromisoformat_isoformat]

theorem foldl_fileAdd_length (rs : List StoryRecord) :
    ∀ init : FileStore, (rs.foldl fileAdd init).length = init.length + rs.length := by
  induction rs with
  | nil => intro init; simp
  | cons r rest ih =>
    intro init
    rw [List.foldl_cons, ih (fileAdd init r)]
    simp [fileAdd]
    omega

/-- C3 (amended): `add` followed by `get` on the returned id reproduces
the record.  File-backed variant: exact round trip (timestamps survive the
`isoformat`/`fromisoformat` rendering losslessly) for an id not already in
the store.  Document-store variant: for a record whose `story` is present
and whose effective id is fresh, `get` returns the record with the
server-assigned id filled in and both timestamps equal up to BSON's
millisecond truncation, hence sub-second-insensitively equal.  `list`
after `N` sequential `add`s on an empty file store has exactly `N`
records; a document-store insert grows the collection by one and `list`
returns one record per stored document whenever each has a `story` key. -/
theorem claim_C3_add_get_roundtrip :
    (∀ (store : FileStore) (r : StoryRecord), (∀ d ∈ store, d.id ≠ r.id) →
      fileGet (fileAdd store r) r.id = some r)
    ∧ (∀ rs : List StoryRecord, (fileList (rs.foldl fileAdd [])).length = rs.length)
    ∧ (∀ (coll : MColl) (r : MStoryRecord) (freshId : String) (coll' : MColl)
        (r' : MStoryRecord) (τ : String),
      r.story = some τ → freshId ≠ "" →
      madd coll freshId r = .ok (coll', r') →
      r'.id = some (effectiveId freshId r.id)
      ∧ mget coll' (effectiveId freshId r.id)
        = .ok (some { id := some (effectiveId freshId r.id), date := r.date
                      weather := r.weather, location := r.location
                      photos := r.photos, story := r.story
                      created_at := truncMs r.created_at
                      updated_at := truncMs r.updated_at })
      ∧ subSecEq (truncMs r.created_at) r.created_at
      ∧ subSecEq (truncMs r.updated_at) r.updated_at
      ∧ coll'.length = coll.length + 1)
    ∧ (∀ coll : MColl, (∀ d ∈ coll, d.story ≠ none) →
      ∃ l, mlist coll = .ok l ∧ l.length = coll.length) := by
  refine ⟨?_, ?_, ?_, ?_⟩
  · intro store r h
    unfold fileGet fileAdd
    have hfind1 : store.find? (fun d => decide (d.id = r.id)) = none :=
      List.find?_eq_none.mpr (by intro x hx; simpa using h x hx)
    rw [List.find?_append, hfind1]
    simp only [Option.none_or]
    rw [List.find?_cons_of_pos _ (by simp [fileSerialize])]
    simp [fileDeserialize_fileSerialize]
  · intro rs
    rw [fileList, List.length_map, foldl_fileAdd_length rs []]
    simp
  · intro coll r freshId coll' r' τ hstory hfresh heq
    simp only [madd, minsertOne] at heq
    split at heq
    · exact Except.noConfusion heq
    · rename_i collv hinsert
      injection heq with hpair
      simp only [Prod.mk.injEq] at hpair
      split at hinsert
      · exact Except.noConfusion hinsert
      · rename_i hany
        injection hinsert with hcollv
        have hcoll : coll ++ [bsonDoc (effectiveId freshId r.id) (mserialize r)] = coll' :=
          hcollv.trans hpair.1
        have heff := effectiveId_ne_empty freshId r.id hfresh
        have hnomatch : ∀ d ∈ coll, d.mid ≠ effectiveId freshId r.id := by
          intro d hd heqmid
          apply hany
          apply List.any_eq_true.mpr
          exact ⟨d, hd, by simpa [bsonDoc] using heqmid⟩
        refine ⟨hpair.2.symm ▸ rfl, ?_, truncMs_subSecEq r.created_at,
          truncMs_subSecEq r.updated_at, by rw [← hcoll]; simp⟩
        rw [← hcoll]
        unfold mget
        rw [if_neg heff]
        have hfind1 : coll.find? (fun d => decide (d.mid = effectiveId freshId r.id)) = none :=
          List.find?_eq_none.mpr (by intro x hx; simpa using hnomatch x hx)
        rw [List.find?_append, hfind1]
        simp [bsonDoc, mdeserialize, mserialize, hstory, Except.map]
  · intro coll h
    induction coll with
    | nil => exact ⟨[], rfl, rfl⟩
    | cons d rest ih =>
      have hd : d.story ≠ none := h d (List.mem_cons_self d rest)
      have hrest : ∀ x ∈ rest, x.story ≠ none := fun x hx => h x (List.mem_cons_of_mem _ hx)
      obtain ⟨l, hl, hlen⟩ := ih hrest
      cases hds : d.story with
      | none => exact absurd hds hd
      | some s =>
        have hdd : mdeserialize d = .ok
            { id := some d.mid, date := d.date
              weather := d.weather, location := d.location, photos := d.photos
              story := some s, created_at := d.created_at, updated_at := d.updated_at } := by
          unfold mdeserialize
          rw [hds]
        refine ⟨{ id := some d.mid, date := d.date
                  weather := d.weather, location := d.location, photos := d.photos
                  story := some s, created_at := d.created_at
                  updated_at := d.updated_at } :: l, ?_, ?_⟩
        · unfold mlist
          rw [hdd, hl]
        · simp [hlen]

/-- C3 counterexample: in the document-store variant, `add` of a record
whose `story` is absent succeeds, but `get` with the returned id raises
the deserialization error instead of returning the record — the
round-trip of the claim fails at this concrete input. -/
theorem claim_C3_counterexample :
    madd [] "f" ⟨some "x", "d", "w", "l", [], none, 5, 5⟩
      = .ok ([⟨"x", "d", "w", "l", [], none, 0, 0⟩],
             ⟨some "x", "d", "w", "l", [], none, 5, 5⟩)
    ∧ (⟨some "x", "d", "w", "l", [], none, 5, 5⟩ : MStoryRecord).id = some "x"
    ∧ mget [⟨"x", "d", "w", "l", [], none, 0, 0⟩] "x"
      = .error DeserializeError.missingStoryField := by
  exact ⟨rfl, rfl, rfl⟩

/-- C3 witness: concrete round trips in both variants plus concrete list
lengths. -/
theorem claim_C3_witness :
    fileGet (fileAdd [] story0) story0.id = some story0
    ∧ (fileList ([story0, story0].foldl fileAdd [])).length = 2
    ∧ (∃ coll' r', madd [] "f" mstory0 = .ok (coll', r')
        ∧ mget coll' (effectiveId "f" mstory0.id)
          = .ok (some { id := some (effectiveId "f" mstory0.id), date := mstory0.date
                        weather := mstory0.weather, location := mstory0.location
                        photos := mstory0.photos, story := mstory0.story
                        created_at := truncMs mstory0.created_at
                        updated_at := truncMs mstory0.updated_at })
        ∧ subSecEq (truncMs mstory0.created_at) mstory0.created_at
        ∧ coll'.length = 1)
    ∧ (∃ l, mlist mcoll0 = .ok l ∧ l.length = 1) := by
  refine ⟨?_, ?_, ?_, ?_⟩
  · exact claim_C3_add_get_roundtrip.1 [] story0 (by simp)
  · exact claim_C3_add_get_roundtrip.2.1 [story0, story0]
  · refine ⟨_, _, rfl, ?_⟩
    have := claim_C3_add_get_roundtrip.2.2.1 [] mstory0 "f" _ _ "t" rfl (by decide) rfl
    exact ⟨this.2.1, this.2.2.1, this.2.2.2.2⟩
  · exact claim_C3_add_get_roundtrip.2.2.2 mcoll0 (by decide)

theorem persist_snd_cons (base : MPath) (ids : Nat → String) (k : Nat) (fs : Fs)
    (v : Upload) (rest : List Upload) (hv : v.content ≠ []) :
    (persist base ids k fs (v :: rest)).2
      = (persist base ids (k + 1)
          (fsWrite fs (joinPath base ⟨false, [ids k ++ uploadExtension v]⟩) v.content) rest).2 := by
  rcases hp : persist base ids (k + 1)
      (fsWrite fs (joinPath base ⟨false, [ids k ++ uploadExtension v]⟩) v.content) rest
    with ⟨res, f⟩
  simp only [persist]
  rw [if_neg hv, hp]
  cases res <;> rfl

/-- C5 (amended): an empty upload makes `persist` fail with
`EmptyUploadError`, and the empty upload is rejected before its own disk
write: the filesystem `persist` leaves behind is exactly the one produced
by the uploads preceding the first empty one — nothing is written for the
empty upload or for any later upload, and when the empty upload comes
first the filesystem is completely untouched. -/
theorem claim_C5_persist_empty (base : MPath) (ids : Nat → String) (k : Nat) (fs : Fs)
    (u : Upload) (pre post : List Upload)
    (hpre : ∀ v ∈ pre, v.content ≠ []) (hu : u.content = []) :
    persist base ids k fs (pre ++ u :: post)
      = (.error .emptyUpload, (persist base ids k fs pre).2) := by
  induction pre generalizing k fs with
  | nil => simp [persist, hu]
  | cons v rest ih =>
    have hv : v.content ≠ [] := hpre v (List.mem_cons_self v rest)
    have hrest : ∀ x ∈ rest, x.content ≠ [] := fun x hx => hpre x (List.mem_cons_of_mem _ hx)
    rw [List.cons_append]
    rw [persist_snd_cons base ids k fs v rest hv]
    simp only [persist]
    rw [if_neg hv]
    rw [ih (k + 1)
      (fsWrite fs (joinPath base ⟨false, [ids k ++ uploadExtension v]⟩) v.content) hrest]

/-- C5 counterexample: `persist` of a nonempty upload followed by an empty
one fails with `EmptyUploadError`, yet the first upload's file has been
written to disk — refuting the claim's "writes no file to disk" for this
input. -/
theorem claim_C5_counterexample :
    (persist upDir (fun _ => "x") 0 fsEmpty [upl1, upl2]).1 = .error .emptyUpload
    ∧ (persist upDir (fun _ => "x") 0 fsEmpty [upl1, upl2]).2
        (joinPath upDir ⟨false, ["x.jpg"]⟩) = some [1] := by
  exact ⟨rfl, rfl⟩

/-- C5 witness: the amended statement at the same concrete input, and the
untouched-filesystem case when the empty upload comes first. -/
theorem claim_C5_witness :
    persist upDir (fun _ => "x") 0 fsEmpty [upl1, upl2]
      = (.error .emptyUpload, (persist upDir (fun _ => "x") 0 fsEmpty [upl1]).2)
    ∧ persist upDir (fun _ => "x") 0 fsEmpty [upl2, upl1]
      = (.error .emptyUpload, fsEmpty) := by
  constructor
  · exact claim_C5_persist_empty upDir (fun _ => "x") 0 fsEmpty upl2 [upl1] []
      (by decide) rfl
  · exact claim_C5_persist_empty upDir (fun _ => "x") 0 fsEmpty upl2 [] [upl1]
      (by simp) rfl

theorem str_append_inj (a b c d : String) (h : a ++ c = b ++ d)
    (hl : a.length = b.length) : a = b := by
  have hd : a.data ++ c.data = b.data ++ d.data := by
    have := congrArg String.data h
    simpa [String.data_append] using this
  exact String.ext (List.append_inj_left hd hl)

theorem drop_append_last {α : Type} (l : List α) (x : α) (dflt : α) (h : l ≠ []) :
    (l ++ [x]).drop (l.length - 1) = [(l.getLast?).getD dflt, x] := by
  induction l with
  | nil => exact absurd rfl h
  | cons a tl ih =>
    match tl with
    | [] => simp
    | b :: tl2 =>
      have h2 : (b :: tl2) ≠ [] := by simp
      have := ih h2
      simpa [List.getLast?_cons_cons] using this

theorem dropLast_append_last {α : Type} (l : List α) (dflt : α) (h : l ≠ []) :
    l.dropLast ++ [(l.getLast?).getD dflt] = l := by
  rw [List.getLast?_eq_getLast l h]
  exact List.dropLast_append_getLast h

theorem resolve_recorded (base : MPath) (nm : String) (hb : base.parts ≠ []) :
    resolve_path base (relativeTo (joinPath base ⟨false, [nm]⟩) (parentDir base))
      = joinPath base ⟨false, [nm]⟩ := by
  have hjoin : joinPath base ⟨false, [nm]⟩ = ⟨base.absolute, base.parts ++ [nm]⟩ := rfl
  have hrel : relativeTo (joinPath base ⟨false, [nm]⟩) (parentDir base)
      = ⟨false, [(base.parts.getLast?).getD "", nm]⟩ := by
    rw [hjoin]
    unfold relativeTo parentDir
    simp only [List.length_dropLast]
    rw [drop_append_last base.parts nm "" hb]
  rw [hrel]
  unfold resolve_path
  rw [if_neg (by simp), if_pos (by simp [dirName])]
  simp only [joinPath, parentDir, Bool.false_eq_true, if_false, MPath.mk.injEq, true_and]
  rw [show ([(base.parts.getLast?).getD "", nm] : List String)
      = [(base.parts.getLast?).getD ""] ++ [nm] from rfl,
    ← List.append_assoc, dropLast_append_last base.parts "" hb]

theorem persist_preserves (base : MPath) (ids : Nat → String) :
    ∀ (us : List Upload) (k : Nat) (fs : Fs) (q : MPath),
      (∀ i, i < us.length →
        q ≠ joinPath base ⟨false, [ids (k + i) ++ uploadExtension (us.getD i ⟨none, none, []⟩)]⟩) →
      (persist base ids k fs us).2 q = fs q := by
  intro us
  induction us with
  | nil => intro k fs q _; rfl
  | cons u rest ih =>
    intro k fs q h
    by_cases hu : u.content = []
    · simp [persist, hu]
    · rw [persist_snd_cons base ids k fs u rest hu]
      rw [ih (k + 1) _ q ?hshift]
      · apply fsWrite_ne
        have h0 := h 0 (by simp)
        simpa using h0
      case hshift =>
        intro i hi
        have := h (i + 1) (by simpa using Nat.succ_lt_succ hi)
        rw [show k + (i + 1) = k + 1 + i from by omega] at this
        simpa [List.getD_cons_succ] using this

/-- C2: for uploads of non-empty content, `persist` succeeds and returns
one `StoredPhoto`-bytes pair per upload in input order; the drawn
`uuid4().hex` ids (pairwise-distinct fixed-length strings, which is what
the hypotheses on `ids` state) make the returned ids pairwise distinct;
and each returned photo's recorded path resolves back to a file that
exists on the resulting filesystem with exactly the upload's bytes. -/
theorem claim_C2_persist_roundtrip (base : MPath) (ids : Nat → String) :
    ∀ (us : List Upload) (k : Nat) (fs : Fs),
      base.parts ≠ [] →
      (∀ i j, i < us.length → j < us.length → ids (k + i) = ids (k + j) → i = j) →
      (∀ i, i < us.length → (ids (k + i)).length = 32) →
      (∀ u ∈ us, u.content ≠ []) →
      ∃ l fs',
        persist base ids k fs us = (.ok l, fs')
        ∧ l.map (fun pr => pr.2) = us.map Upload.content
        ∧ l.map (fun pr => pr.1.id) = (List.range us.length).map (fun i => ids (k + i))
        ∧ (l.map (fun pr => pr.1.id)).Nodup
        ∧ ∀ pr ∈ l, fs' (resolve_path base pr.1.path) = some pr.2 := by
  intro us
  induction us with
  | nil =>
    intro k fs _ _ _ _
    exact ⟨[], fs, rfl, rfl, rfl, List.nodup_nil, fun pr h => absurd h (List.not_mem_nil pr)⟩
  | cons u rest ih =>
    intro k fs hb hinj hlen hne
    have hu : u.content ≠ [] := hne u (List.mem_cons_self u rest)
    have hner : ∀ v ∈ rest, v.content ≠ [] := fun v hv => hne v (List.mem_cons_of_mem _ hv)
    have hinj' : ∀ i j, i < rest.length → j < rest.length →
        ids (k + 1 + i) = ids (k + 1 + j) → i = j := by
      intro i j hi hj he
      have := hinj (i + 1) (j + 1) (by simp; omega) (by simp; omega) (by
        rw [show k + (i + 1) = k + 1 + i from by omega,
          show k + (j + 1) = k + 1 + j from by omega]
        exact he)
      omega
    have hlen' : ∀ i, i < rest.length → (ids (k + 1 + i)).length = 32 := by
      intro i hi
      have := hlen (i + 1) (by simp; omega)
      rwa [show k + (i + 1) = k + 1 + i from by omega] at this
    obtain ⟨lt, fs', hp, hcont, hids, hnd, hlook⟩ :=
      ih (k + 1) (fsWrite fs (joinPath base ⟨false, [ids k ++ uploadExtension u]⟩) u.content)
        hb hinj' hlen' hner
    have hper : persist base ids k fs (u :: rest)
        = (.ok ((persistPhoto base ids k u, u.content) :: lt), fs') := by
      simp only [persist]
      rw [if_neg hu, hp]
      rfl
    have hdestne : ∀ i, i < rest.length →
        joinPath base ⟨false, [ids k ++ uploadExtension u]⟩
          ≠ joinPath base ⟨false, [ids (k + 1 + i)
              ++ uploadExtension (rest.getD i ⟨none, none, []⟩)]⟩ := by
      intro i hi heq
      have hparts : base.parts ++ [ids k ++ uploadExtension u]
          = base.parts ++ [ids (k + 1 + i) ++ uploadExtension (rest.getD i ⟨none, none, []⟩)] := by
        have := congrArg MPath.parts heq
        simpa [joinPath] using this
      have hnm := List.append_cancel_left hparts
      have hnm2 : ids k ++ uploadExtension u
          = ids (k + 1 + i) ++ uploadExtension (rest.getD i ⟨none, none, []⟩) := by
        simpa using hnm
      have hlenk : (ids k).length = (ids (k + 1 + i)).length := by
        rw [show (ids k) = ids (k + 0) from by rw [Nat.add_zero],
          hlen 0 (by simp), hlen' i hi]
      have hidk : ids k = ids (k + 1 + i) := str_append_inj _ _ _ _ hnm2 (by
        rw [show (ids k) = ids (k + 0) from by rw [Nat.add_zero]] at hlenk ⊢
        exact hlenk)
      have := hinj 0 (i + 1) (by simp) (by simp; omega) (by
        rw [Nat.add_zero, show k + (i + 1) = k + 1 + i from by omega]
        exact hidk)
      omega
    have hfs' : fs' = (persist base ids (k + 1)
        (fsWrite fs (joinPath base ⟨false, [ids k ++ uploadExtension u]⟩) u.content) rest).2 := by
      rw [hp]
    have hlookhead : fs' (resolve_path base (persistPhoto base ids k u).path) = some u.content := by
      have hres : resolve_path base (persistPhoto base ids k u).path
          = joinPath base ⟨false, [ids k ++ uploadExtension u]⟩ :=
        resolve_recorded base (ids k ++ uploadExtension u) hb
      rw [hres, hfs']
      rw [persist_preserves base ids rest (k + 1) _ _ hdestne]
      exact fsWrite_self fs _ u.content
    have hidseq : ((persistPhoto base ids k u, u.content) :: lt).map (fun pr => pr.1.id)
        = (List.range (u :: rest).length).map (fun i => ids (k + i)) := by
      simp only [List.length_cons, List.range_succ_eq_map, List.map_cons, List.map_map]
      refine congrArg₂ List.cons ?_ ?_
      · simp [persistPhoto]
      · rw [hids]
        refine List.map_congr_left ?_
        intro a _
        simp only [Function.comp]
        rw [show k + 1 + a = k + (a + 1) from by omega]
    refine ⟨(persistPhoto base ids k u, u.content) :: lt, fs', hper, ?_, hidseq, ?_, ?_⟩
    · simp only [List.map_cons]
      rw [hcont]
    · rw [hidseq]
      refine List.Nodup.map_on ?_ (List.nodup_range _)
      intro i hi j hj he
      exact hinj i j (by simpa using List.mem_range.mp hi)
        (by simpa using List.mem_range.mp hj) he
    · intro pr hpr
      rcases List.mem_cons.mp hpr with heq | hmem
      · rw [heq]
        exact hlookhead
      · exact hlook pr hmem

/-- C2 witness: a concrete two-upload `persist` run on an empty
filesystem. -/
theorem claim_C2_witness :
    ∃ l fs', persist upDir wids 0 fsEmpty [upl1, upl3] = (.ok l, fs')
      ∧ l.map (fun pr => pr.2) = [[1], [2, 3]]
      ∧ l.map (fun pr => pr.1.id)
          = ["aaaaaaaaaaaaaaaaaaaaaaaaaaaaaaaa", "bbbbbbbbbbbbbbbbbbbbbbbbbbbbbbbb"]
      ∧ (l.map (fun pr => pr.1.id)).Nodup
      ∧ ∀ pr ∈ l, fs' (resolve_path upDir pr.1.path) = some pr.2 := by
  obtain ⟨l, fs', h1, h2, h3, h4, h5⟩ :=
    claim_C2_persist_roundtrip upDir wids [upl1, upl3] 0 fsEmpty (by decide)
      (by
        intro i j hi hj he
        simp only [List.length_cons, List.length_nil] at hi hj
        interval_cases i <;> interval_cases j <;>
          first
            | rfl
            | (exfalso; revert he; decide))
      (by
        intro i hi
        simp only [List.length_cons, List.length_nil] at hi
        interval_cases i <;> decide)
      (by decide)
  refine ⟨l, fs', h1, by rw [h2]; rfl, by rw [h3]; rfl, h4, h5⟩

theorem fileGet_facts (store : FileStore) (sid : String) (story : StoryRecord)
    (h : fileGet store sid = some story) :
    story.id = sid ∧ ∃ d ∈ store, d.id = sid := by
  unfold fileGet at h
  cases hf : store.find? (fun d => decide (d.id = sid)) with
  | none => rw [hf] at h; cases h
  | some d =>
    rw [hf] at h
    have hdid : d.id = sid := by simpa using List.find?_some hf
    have hmem : d ∈ store := List.mem_of_find?_eq_some hf
    injection h with hstory
    refine ⟨?_, d, hmem, hdid⟩
    rw [← hstory]
    exact hdid

theorem replaceFirst_some_of_mem (store : FileStore) (r : StoryRecord)
    (h : ∃ d ∈ store, d.id = r.id) : ∃ store', replaceFirst store r = some store' := by
  induction store with
  | nil =>
    obtain ⟨d, hd, _⟩ := h
    cases hd
  | cons a rest ih =>
    by_cases ha : a.id = r.id
    · exact ⟨fileSerialize r :: rest, by simp [replaceFirst, ha]⟩
    · obtain ⟨d, hd, hdid⟩ := h
      rcases List.mem_cons.mp hd with heq | hmem
      · exact absurd (heq ▸ hdid) ha
      · obtain ⟨store', hs⟩ := ih ⟨d, hmem, hdid⟩
        exact ⟨a :: store', by simp [replaceFirst, ha, hs]⟩

/-- C4 counterexample: a concrete `update_story_photos` call on a story
with two photos keeping one of them succeeds with a one-photo record, yet
the record's `story` is the freshly generated narrative, not absent — the
claim's "story field is cleared to absent" fails on this input. -/
theorem claim_C4_counterexample :
    Except.map (fun out => out.2.story)
      (updateStoryPhotos upDir audDir (fun _ => "x") 0 "new story" 9 world0 "s"
        none none none ["p1"] []) = .ok (some "new story")
    ∧ Except.map (fun out => out.2.photos.length)
      (updateStoryPhotos upDir audDir (fun _ => "x") 0 "new story" 9 world0 "s"
        none none none ["p1"] []) = .ok 1 := by
  exact ⟨rfl, rfl⟩

/-- C4 (amended): on a story with exactly two photos, `update_story_photos`
keeping one photo and uploading nothing succeeds with a record whose
`photos` list is exactly the kept photo (length 1), whose `story` is set
to the freshly regenerated narrative — not cleared to absent — whose
`updated_at` is the call's `now` and hence strictly greater than the prior
value, and the removed photo's resolved path no longer exists on disk. -/
theorem claim_C4_update_remove_one (uploadDir audioDir : MPath) (ids : Nat → String)
    (k : Nat) (storyText : String) (now : DateTime) (w : World) (story_id : String)
    (date weather location : Option String) (story : StoryRecord)
    (p1 p2 : StoredPhoto) (b : Bytes)
    (hget : fileGet w.store story_id = some story)
    (hphotos : story.photos = [p1, p2])
    (hne : p2.id ≠ p1.id)
    (hload : w.fs (resolve_path uploadDir p1.path) = some b)
    (hnow : story.updated_at < now) :
    ∃ w' r',
      updateStoryPhotos uploadDir audioDir ids k storyText now w story_id
          date weather location [p1.id] [] = .ok (w', r')
      ∧ r'.photos = [p1]
      ∧ r'.photos.length = 1
      ∧ r'.story = some storyText
      ∧ story.updated_at < r'.updated_at
      ∧ w'.fs (resolve_path uploadDir p2.path) = none := by
  have hsid := fileGet_facts w.store story_id story hget
  have hkeep : story.photos.filter
      (fun p => decide (p.id ∈ ([p1.id] : List String).toFinset)) = [p1] := by
    rw [hphotos]
    simp [List.filter, hne]
  have hrem : story.photos.filter
      (fun p => decide (p.id ∉ ([p1.id] : List String).toFinset)) = [p2] := by
    rw [hphotos]
    simp [List.filter, hne]
  obtain ⟨store', hrep⟩ := replaceFirst_some_of_mem w.store
    { story with
      date := orElseStr date story.date, weather := orElseStr weather story.weather
      location := orElseStr location story.location
      photos := [p1] ++ ([] : List (StoredPhoto × Bytes)).map (fun x => x.1)
      story := some storyText, updated_at := now }
    (by
      obtain ⟨hid, d, hd, hdid⟩ := hsid
      exact ⟨d, hd, by rw [hdid, ← hid]⟩)
  refine ⟨⟨photoDeleteMany uploadDir (deleteAudioFile audioDir w.fs story.id) [p2], store'⟩,
    { story with
      date := orElseStr date story.date, weather := orElseStr weather story.weather
      location := orElseStr location story.location
      photos := [p1] ++ ([] : List (StoredPhoto × Bytes)).map (fun x => x.1)
      story := some storyText, updated_at := now }, ?_, ?_, ?_, ?_, ?_, ?_⟩
  · simp only [updateStoryPhotos, hget]
    rw [if_neg (show ¬(([p1.id] : List String) = []) by simp)]
    rw [hkeep, hrem]
    rw [if_neg (show ¬(([p1.id] : List String) ≠ [] ∧
        ([p1] : List StoredPhoto).length ≠ ([p1.id] : List String).toFinset.card) by simp)]
    simp only [persist]
    rw [show loadMany uploadDir w.fs [p1] = .ok [b] from by
      simp [loadMany, load_bytes, hload]]
    dsimp only
    rw [if_neg (show ¬(([b] : List Bytes) = [] ∧
        (([] : List (StoredPhoto × Bytes)).map (fun x => x.2)) = []) by simp)]
    rw [if_neg (show ¬(([p2] : List StoredPhoto) = []) by simp)]
    rw [show fileUpdate w.store _ = (none, store') from by
      unfold fileUpdate
      rw [hrep]]
  · rfl
  · rfl
  · rfl
  · exact hnow
  · show photoDeleteMany uploadDir
        (deleteAudioFile audioDir w.fs story.id) [p2] (resolve_path uploadDir p2.path) = none
    exact photoDeleteMany_deletes uploadDir [p2] _ p2 (List.mem_cons_self p2 [])

/-- C4 witness: the amended statement at a concrete world where the story
owns `ph1` and `ph2`, keeping `ph1`. -/
theorem claim_C4_witness :
    ∃ w' r', updateStoryPhotos upDir audDir (fun _ => "x") 0 "regen" 9 world0 "s"
        none none none ["p1"] [] = .ok (w', r')
      ∧ r'.photos = [ph1]
      ∧ r'.photos.length = 1
      ∧ r'.story = some "regen"
      ∧ story0.updated_at < r'.updated_at
      ∧ w'.fs (resolve_path upDir ph2.path) = none := by
  exact claim_C4_update_remove_one upDir audDir (fun _ => "x") 0 "regen" 9 world0 "s"
    none none none story0 ph1 ph2 [1] rfl rfl (by decide) rfl (by decide)

theorem getD_set_self {α : Type} (l : List α) (t : Nat) (a dflt : α) (h : t < l.length) :
    (l.set t a).getD t dflt = a := by
  simp [List.getD, List.getElem?_set_self, h]

theorem getD_set_ne {α : Type} (l : List α) (t u : Nat) (a dflt : α) (h : u ≠ t) :
    (l.set t a).getD u dflt = l.getD u dflt := by
  rw [List.getD_eq_getElem?_getD, List.getElem?_set_ne (Ne.symm h), ← List.getD_eq_getElem?_getD]

theorem phAt_lt_of_ne_done (s : ConcState) (t : Nat) (h : phAt s t ≠ .done) :
    t < s.phases.length := by
  by_contra hge
  apply h
  unfold phAt
  rw [List.getD_eq_getElem?_getD, List.getElem?_eq_none (by omega)]
  rfl

theorem filter_flip_perm (t : Nat) (c c' : Nat → Bool) :
    ∀ l : List Nat, l.Nodup → t ∈ l → (∀ u ∈ l, u ≠ t → c' u = c u) →
      c t = false → c' t = true →
      List.Perm (l.filter c') (t :: l.filter c) := by
  intro l
  induction l with
  | nil => intro _ ht; cases ht
  | cons a tl ih =>
    intro hnd ht h1 hct hct'
    rcases List.mem_cons.mp ht with heq | hmem
    · subst heq
      have htl : ∀ u ∈ tl, c' u = c u := by
        intro u hu
        have hut : u ≠ t := by
          intro he
          exact (List.nodup_cons.mp hnd).1 (he ▸ hu)
        exact h1 u (List.mem_cons_of_mem _ hu) hut
      rw [List.filter_cons, List.filter_cons, hct, hct', if_pos rfl,
        if_neg (by simp), List.filter_congr htl]
    · have hat : a ≠ t := by
        intro he
        exact (List.nodup_cons.mp hnd).1 (he ▸ hmem)
      have hperm := ih (List.nodup_cons.mp hnd).2 hmem
        (fun u hu hut => h1 u (List.mem_cons_of_mem _ hu) hut) hct hct'
      rw [List.filter_cons, List.filter_cons, h1 a (List.mem_cons_self a tl) hat]
      cases hca : c a with
      | true =>
        rw [if_pos rfl]
        exact (hperm.cons a).trans (List.Perm.swap t a _)
      | false =>
        rw [if_neg (by simp)]
        exact hperm

theorem connStep_inv (n : Nat) (recs : Nat → StoryRecord) (s : ConcState) (t : Nat)
    (hinv : ConcInv n recs s) : ConcInv n recs (connStep recs s t) := by
  obtain ⟨hlen, hperm, hlock, hactive⟩ := hinv
  cases hph : phAt s t with
  | done =>
    have hstep : connStep recs s t = s := by
      unfold connStep
      rw [hph]
    rw [hstep]
    exact ⟨hlen, hperm, hlock, hactive⟩
  | ready =>
    have htn : t < s.phases.length :=
      phAt_lt_of_ne_done s t (by rw [hph]; intro h; cases h)
    cases hl : s.lock with
    | some v =>
      have hstep : connStep recs s t = s := by
        unfold connStep
        rw [hph, hl]
      rw [hstep]
      exact ⟨hlen, hperm, hlock, hactive⟩
    | none =>
      have hstep : connStep recs s t = ⟨s.store, some t, s.phases.set t .locked⟩ := by
        unfold connStep
        rw [hph, hl]
      rw [hstep]
      refine ⟨by simpa using hlen, ?_, ?_, ?_⟩
      · have hcong : ∀ u ∈ List.range n,
            contributed (phAt ⟨s.store, some t, s.phases.set t .locked⟩ u)
              = contributed (phAt s u) := by
          intro u _
          by_cases hut : u = t
          · subst hut
            rw [show phAt ⟨s.store, some u, s.phases.set u .locked⟩ u = .locked from
                getD_set_self s.phases u .locked .done htn, hph]
            rfl
          · rw [show phAt ⟨s.store, some t, s.phases.set t .locked⟩ u = phAt s u from
                getD_set_ne s.phases t u .locked .done hut]
        rw [List.filter_congr hcong]
        exact hperm
      · intro t' ht'
        injection ht' with ht'e
        subst ht'e
        exact ⟨hlen ▸ htn, Or.inl (getD_set_self s.phases t .locked .done htn)⟩
      · intro u hu hact
        by_cases hut : u = t
        · subst hut; rfl
        · exfalso
          rw [show phAt ⟨s.store, some t, s.phases.set t .locked⟩ u = phAt s u from
            getD_set_ne s.phases t u .locked .done hut] at hact
          have := hactive u hu hact
          rw [hl] at this
          cases this
  | locked =>
    have htn : t < s.phases.length :=
      phAt_lt_of_ne_done s t (by rw [hph]; intro h; cases h)
    have hlockt : s.lock = some t := hactive t (hlen ▸ htn) (by rw [hph]; trivial)
    have hstep : connStep recs s t
        = ⟨s.store, s.lock, s.phases.set t (.readDone s.store)⟩ := by
      unfold connStep
      rw [hph]
    rw [hstep]
    refine ⟨by simpa using hlen, ?_, ?_, ?_⟩
    · have hcong : ∀ u ∈ List.range n,
          contributed (phAt ⟨s.store, s.lock, s.phases.set t (.readDone s.store)⟩ u)
            = contributed (phAt s u) := by
        intro u _
        by_cases hut : u = t
        · subst hut
          rw [show phAt ⟨s.store, s.lock, s.phases.set u (.readDone s.store)⟩ u
              = .readDone s.store from getD_set_self s.phases u _ .done htn, hph]
          rfl
        · rw [show phAt ⟨s.store, s.lock, s.phases.set t (.readDone s.store)⟩ u = phAt s u from
            getD_set_ne s.phases t u _ .done hut]
      rw [List.filter_congr hcong]
      exact hperm
    · intro t' ht'
      have ht'e : t' = t := by
        rw [hlockt] at ht'
        injection ht' with h
        exact h.symm
      subst ht'e
      exact ⟨hlen ▸ htn, Or.inr (Or.inl (getD_set_self s.phases t' _ .done htn))⟩
    · intro u hu hact
      by_cases hut : u = t
      · subst hut
        exact hlockt
      · rw [show phAt ⟨s.store, s.lock, s.phases.set t (.readDone s.store)⟩ u = phAt s u from
          getD_set_ne s.phases t u _ .done hut] at hact
        exact hactive u hu hact
  | readDone snap =>
    have htn : t < s.phases.length :=
      phAt_lt_of_ne_done s t (by rw [hph]; intro h; cases h)
    have hlockt : s.lock = some t := hactive t (hlen ▸ htn) (by rw [hph]; trivial)
    have hsnap : snap = s.store := by
      rcases (hlock t hlockt).2 with h | h | h
      · rw [hph] at h; cases h
      · rw [hph] at h
        injection h
      · rw [hph] at h; cases h
    have hstep : connStep recs s t
        = ⟨snap ++ [fileSerialize (recs t)], s.lock, s.phases.set t .written⟩ := by
      unfold connStep
      rw [hph]
    rw [hstep]
    refine ⟨by simpa using hlen, ?_, ?_, ?_⟩
    · have hflip := filter_flip_perm t (fun u => contributed (phAt s u))
        (fun u => contributed (phAt ⟨snap ++ [fileSerialize (recs t)], s.lock,
          s.phases.set t .written⟩ u))
        (List.range n) (List.nodup_range n) (List.mem_range.mpr (hlen ▸ htn))
        (fun u _ hut => congrArg contributed (getD_set_ne s.phases t u Phase.written Phase.done hut))
        (by
          show contributed (phAt s t) = false
          rw [hph]
          rfl)
        (by
          show contributed (phAt ⟨snap ++ [fileSerialize (recs t)], s.lock,
            s.phases.set t .written⟩ t) = true
          rw [show phAt ⟨snap ++ [fileSerialize (recs t)], s.lock, s.phases.set t .written⟩ t
            = .written from getD_set_self s.phases t _ .done htn]
          rfl)
      rw [hsnap]
      exact ((List.perm_append_singleton _ _).trans
        ((hperm.cons _).trans (hflip.map (fun u => fileSerialize (recs u))).symm))
    · intro t' ht'
      have ht'e : t' = t := by
        rw [hlockt] at ht'
        injection ht' with h
        exact h.symm
      subst ht'e
      exact ⟨hlen ▸ htn, Or.inr (Or.inr (getD_set_self s.phases t' _ .done htn))⟩
    · intro u hu hact
      by_cases hut : u = t
      · subst hut
        exact hlockt
      · rw [show phAt ⟨snap ++ [fileSerialize (recs t)], s.lock, s.phases.set t .written⟩ u
            = phAt s u from getD_set_ne s.phases t u _ .done hut] at hact
        exact hactive u hu hact
  | written =>
    have htn : t < s.phases.length :=
      phAt_lt_of_ne_done s t (by rw [hph]; intro h; cases h)
    have hlockt : s.lock = some t := hactive t (hlen ▸ htn) (by rw [hph]; trivial)
    have hstep : connStep recs s t = ⟨s.store, none, s.phases.set t .done⟩ := by
      unfold connStep
      rw [hph]
    rw [hstep]
    refine ⟨by simpa using hlen, ?_, ?_, ?_⟩
    · have hcong : ∀ u ∈ List.range n,
          contributed (phAt ⟨s.store, none, s.phases.set t .done⟩ u)
            = contributed (phAt s u) := by
        intro u _
        by_cases hut : u = t
        · subst hut
          rw [show phAt ⟨s.store, none, s.phases.set u .done⟩ u = .done from
            getD_set_self s.phases u _ .done htn, hph]
          rfl
        · rw [show phAt ⟨s.store, none, s.phases.set t .done⟩ u = phAt s u from
            getD_set_ne s.phases t u _ .done hut]
      rw [List.filter_congr hcong]
      exact hperm
    · intro t' ht'
      cases ht'
    · intro u hu hact
      by_cases hut : u = t
      · subst hut
        rw [show phAt ⟨s.store, none, s.phases.set u .done⟩ u = .done from
          getD_set_self s.phases u _ .done htn] at hact
        exact hact.elim
      · rw [show phAt ⟨s.store, none, s.phases.set t .done⟩ u = phAt s u from
          getD_set_ne s.phases t u _ .done hut] at hact
        have := hactive u hu hact
        rw [hlockt] at this
        injection this with he
        exact absurd he.symm hut

theorem connRun_inv (n : Nat) (recs : Nat → StoryRecord) (sched : List Nat) :
    ∀ s : ConcState, ConcInv n recs s → ConcInv n recs (connRun recs s sched) := by
  induction sched with
  | nil => intro s h; exact h
  | cons t rest ih =>
    intro s h
    exact ih (connStep recs s t) (connStep_inv n recs s t h)

theorem phAt_connInit (n u : Nat) (hu : u < n) : phAt (connInit n) u = .ready := by
  unfold phAt connInit
  simp [List.getD_eq_getElem?_getD, List.getElem?_replicate, hu]

theorem connInit_inv (n : Nat) (recs : Nat → StoryRecord) : ConcInv n recs (connInit n) := by
  refine ⟨by simp [connInit], ?_, ?_, ?_⟩
  · have hnil : (List.range n).filter (fun u => contributed (phAt (connInit n) u)) = [] := by
      rw [List.filter_eq_nil_iff]
      intro a ha
      rw [phAt_connInit n a (List.mem_range.mp ha)]
      simp [contributed]
    rw [hnil]
    exact List.Perm.refl _
  · intro t ht
    cases ht
  · intro u hu hact
    rw [phAt_connInit n u hu] at hact
    exact hact.elim

/-- C6: concurrent `add` calls on the initially empty file-backed store,
modelled as an arbitrary interleaving of lock-acquire / read-all /
write-all / release steps in which an acquire against a held lock blocks:
whenever a schedule completes all `n` threads, the stories file holds
exactly one serialized document per thread — a permutation of the `n`
records, so no entry is lost to an interleaved read-modify-write — and
`list()` afterwards returns exactly `n` records. -/
theorem claim_C6_concurrent_adds (n : Nat) (recs : Nat → StoryRecord) (sched : List Nat)
    (hdone : ∀ t, t < n → phAt (connRun recs (connInit n) sched) t = .done) :
    List.Perm (connRun recs (connInit n) sched).store
      ((List.range n).map (fun t => fileSerialize (recs t)))
    ∧ (fileList (connRun recs (connInit n) sched).store).length = n := by
  obtain ⟨hlen, hperm, _, _⟩ :=
    connRun_inv n recs sched (connInit n) (connInit_inv n recs)
  have hfull : (List.range n).filter
      (fun u => contributed (phAt (connRun recs (connInit n) sched) u)) = List.range n := by
    rw [List.filter_eq_self]
    intro a ha
    rw [hdone a (List.mem_range.mp ha)]
    rfl
  rw [hfull] at hperm
  refine ⟨hperm, ?_⟩
  rw [fileList, List.length_map, hperm.length_eq]
  simp

/-- C6 witness: two threads under a schedule in which thread 1 first tries
to acquire the lock while thread 0 holds it (and blocks), yet both adds
complete and the store ends with exactly one document per thread. -/
theorem claim_C6_witness :
    (∀ t, t < 2 → phAt (connRun wrecs (connInit 2) [0, 1, 0, 0, 0, 1, 1, 1, 1]) t = .done)
    ∧ List.Perm (connRun wrecs (connInit 2) [0, 1, 0, 0, 0, 1, 1, 1, 1]).store
        ((List.range 2).map (fun t => fileSerialize (wrecs t)))
    ∧ (fileList (connRun wrecs (connInit 2) [0, 1, 0, 0, 0, 1, 1, 1, 1]).store).length = 2 := by
  refine ⟨by decide, ?_, ?_⟩
  · exact (claim_C6_concurrent_adds 2 wrecs [0, 1, 0, 0, 0, 1, 1, 1, 1] (by decide)).1
  · exact (claim_C6_concurrent_adds 2 wrecs [0, 1, 0, 0, 0, 1, 1, 1, 1] (by decide)).2
